import Mathlib

set_option maxRecDepth 100000

/-!
Verification of src/src/aws_policy_generator/cli.py against its design
specification.  The program is embedded shallowly: strings are modelled as
List Char, the external fzf picker is modelled by the raw result it hands
back to the program (a list of chosen lines, or a process interrupt), and
the interactive main loop is modelled as a fold over the finite trace of
picker results observed during one session.
-/

namespace AwsPolicyGenerator

/-- Converts a Lean string literal into the character-list representation
used throughout this development. -/
def str (s : String) : List Char := s.data

/-- The single-quote character used by the writer to quote the Resource
value, written by code point. -/
def squote : Char := Char.ofNat 39

/-- The opening curly brace character, written by code point. -/
def lbrace : Char := Char.ofNat 123

/-- The closing curly brace character, written by code point. -/
def rbrace : Char := Char.ofNat 125

/-- Fuel-indexed worker for `replaceAll`.  Scans left to right; at each
position, if the (always non-empty) pattern is a prefix of the remaining
text it emits the substitute and continues after the matched occurrence,
exactly like the Python builtin str.replace.  The fuel starts at the length
of the scanned list, which bounds the number of steps, so the fuel-zero arm
is never reached on a non-empty list. -/
def replaceAllGo (pat sub : List Char) : Nat → List Char → List Char
  | _, [] => []
  | 0, s => s
  | fuel + 1, c :: rest =>
    if pat ≠ [] ∧ pat.isPrefixOf (c :: rest) = true then
      sub ++ replaceAllGo pat sub fuel (List.drop (pat.length - 1) rest)
    else
      c :: replaceAllGo pat sub fuel rest

/-- Model of the Python builtin str.replace(pat, sub) for a non-empty
pattern: replaces every non-overlapping occurrence, left to right, without
rescanning the substituted text. -/
def replaceAll (pat sub s : List Char) : List Char :=
  replaceAllGo pat sub s.length s

/-- The angle-bracket placeholder syntax built by rep in cli.py line 109. -/
def angled (key : List Char) : List Char := '<' :: key ++ ['>']

/-- The brace placeholder syntax built by rep in cli.py line 110. -/
def braced (key : List Char) : List Char := lbrace :: key ++ [rbrace]

/-- Embedding of the inner function rep of variables_embeder
(cli.py lines 106-111): when the value is absent the source is returned
unchanged; otherwise the angle form is replaced first and then the brace
form, each with the given value. -/
def rep (source key : List Char) (value : Option (List Char)) : List Char :=
  match value with
  | none => source
  | some v => replaceAll (braced key) v (replaceAll (angled key) v source)

/-- Embedding of variables_embeder (cli.py lines 104-123).  Note that the
source passes the region value to rep for every account-key spelling as
well; the account_id argument is captured by the closure but never used. -/
def variables_embeder (region account_id : Option (List Char)) :
    List Char → List Char :=
  fun fmt =>
    let fmt := rep fmt (str "region") region
    let fmt := rep fmt (str "Account") region
    let fmt := rep fmt (str "AccountId") region
    let fmt := rep fmt (str "account") region
    let fmt := rep fmt (str "accountId") region
    let fmt := rep fmt (str "account_id") region
    let fmt := rep fmt (str "account_ID") region
    let fmt := rep fmt (str "account_Id") region
    fmt

/-- Boolean substring test, used only to state properties about outputs of
the substitution engine. -/
def containsSub (pat : List Char) : List Char → Bool
  | [] => pat.isPrefixOf []
  | c :: rest => pat.isPrefixOf (c :: rest) || containsSub pat rest

/-- The character class matched by the regex token backslash-s in Python 3
on str patterns: ASCII whitespace plus the Unicode whitespace code
points. -/
def isSpacePy (c : Char) : Bool :=
  c == ' ' || c == '\t' || c == '\n' || c == '\r' ||
  Char.toNat c == 11 || Char.toNat c == 12 ||
  Char.toNat c == 28 || Char.toNat c == 29 ||
  Char.toNat c == 30 || Char.toNat c == 31 ||
  Char.toNat c == 133 || Char.toNat c == 160 ||
  Char.toNat c == 0x1680 ||
  (0x2000 ≤ Char.toNat c && Char.toNat c ≤ 0x200a) ||
  Char.toNat c == 0x2028 || Char.toNat c == 0x2029 ||
  Char.toNat c == 0x202f || Char.toNat c == 0x205f ||
  Char.toNat c == 0x3000

/-- Checks that rest has the shape mid ++ right-bracket with mid non-empty
and free of newlines: the tail of a match of the regex (after the opening
bracket) whose end-of-line anchor sits at the very end of the string. -/
def checkA (rest : List Char) : Bool :=
  rest.getLast? == some ']' && !rest.dropLast.isEmpty &&
    rest.dropLast.all (fun c => !(c == '\n'))

/-- Checks that rest has the shape mid ++ right-bracket ++ newline: the
end-of-line anchor of the regex also matches just before a newline that is
the final character of the string. -/
def checkB (rest : List Char) : Bool :=
  rest.getLast? == some '\n' && checkA rest.dropLast

/-- Decides whether a match of the regex used at cli.py line 89 (optional
whitespace, an opening bracket, one or more non-newline characters, a
closing bracket, then the end-of-string anchor) starts at the head of t and
runs to the end of the string.  Returns the unmatched leftover (empty, or
the final newline the anchor stopped before) when it does. -/
def matchHere (t : List Char) : Option (List Char) :=
  match t.dropWhile isSpacePy with
  | [] => none
  | c :: rest =>
    if c = '[' then
      if checkA rest then some []
      else if checkB rest then some ['\n']
      else none
    else none

/-- Scans for the leftmost position at which the regex matches through to
the end of the string and deletes the matched span, keeping any leftover
final newline; this is re.sub with that pattern and an empty replacement,
which can fire at most once because of the end anchor. -/
def reSubGo : List Char → List Char
  | [] => []
  | c :: rest =>
    match matchHere (c :: rest) with
    | some leftover => leftover
    | none => c :: reSubGo rest

/-- Embedding of the label-stripping expression at cli.py line 89: deletes
the trailing bracketed suffix (with any whitespace run in front of it) from
a displayed service label. -/
def strip_label (s : List Char) : List Char := reSubGo s

/-- Embedding of the Service dataclass (cli.py lines 18-27), keeping the
fields the program reads.  The field  string_prefix is the IAM action
namespace and arn_format the optional resource template. -/
structure Service where
  string_prefix : List Char
  actions : List (List Char)
  condition_keys : Option (List (List Char)) := none
  has_resource : Option Bool := none
  arn_regex : Option (List Char) := none
  arn_format : Option (List Char) := none
deriving DecidableEq

/-- Embedding of the Policies dataclass (cli.py lines 30-36).  The service
map is an insertion-ordered association list; the catalog loader guarantees
unique keys, under which first-match lookup agrees with the Python dict. -/
structure Policies where
  condition_operators : List (List Char)
  condition_keys : List (List Char)
  service_map : List (List Char × Service)
deriving DecidableEq

/-- The raw outcome of one invocation of the external fzf picker process:
either the list of lines it printed, or a process interrupt raised as a
plumbum ProcessExecutionError. -/
inductive FzfResult where
  | interrupt : FzfResult
  | out : List (List Char) → FzfResult
deriving DecidableEq

/-- Result of select_menu as observed by its callers. -/
inductive MenuRes where
  | interrupted : MenuRes
  | cancelled : MenuRes
  | chosen : List (List Char) → MenuRes
deriving DecidableEq

/-- Embedding of select_menu (cli.py lines 39-47): an empty fzf result is
surfaced as cancellation (the Python None), a non-empty result is returned
as is, and a picker interrupt propagates.  The candidate list, prompt and
multi flag only configure the external process and do not constrain the
raw result. -/
def select_menu (candidates : List (List Char)) (prompt : List Char)
    (multi : Bool) (raw : FzfResult) : MenuRes :=
  match raw with
  | .interrupt => .interrupted
  | .out xs => if xs = [] then .cancelled else .chosen xs

/-- The displayed label for one catalog entry, built at cli.py line 79:
the key, a space, and the bracketed action-namespace value. -/
def label (key : List Char) (s : Service) : List Char :=
  key ++ ' ' :: '[' :: ( Service.string_prefix s ++ [']'])

/-- The service candidate list of input_service (cli.py lines 79-81): one
label per catalog entry, with the sentinel label end inserted in front when
insert_end is set. -/
def service_candidates (policies : Policies) (insert_end : Bool) :
    List (List Char) :=
  let services := policies.service_map.map (fun kv => label kv.1 kv.2)
  if insert_end then str "end" :: services else services

/-- Result of input_service as observed by main. -/
inductive SvcRes where
  | interrupt : SvcRes
  | cancel : SvcRes
  | found : Service → SvcRes
deriving DecidableEq

/-- Embedding of input_service (cli.py lines 78-94): builds the candidate
labels, runs the picker, recognises the sentinel when it was offered,
otherwise strips the bracketed suffix from each chosen label, looks the
keys up in the catalog and returns the first hit; no hit is treated as
cancellation. -/
def input_service (policies : Policies) (insert_end : Bool)
    (raw : FzfResult) : SvcRes :=
  match select_menu (service_candidates policies insert_end) (str "Service")
      false raw with
  | .interrupted => .interrupt
  | .cancelled => .cancel
  | .chosen service_names =>
    if insert_end ∧ service_names = [str "end"] then .cancel
    else
      match service_names.filterMap
          (fun name => List.lookup (strip_label name) policies.service_map) with
      | [] => .cancel
      | s :: _ => .found s

/-- Result of input_actions as observed by main. -/
inductive ActRes where
  | interrupt : ActRes
  | cancel : ActRes
  | selected : List (List Char) → ActRes
deriving DecidableEq

/-- Embedding of input_actions (cli.py lines 97-101): offers the actions of
the service in multi-select mode and passes the picker result through. -/
def input_actions (service : Service) (raw : FzfResult) : ActRes :=
  match select_menu (Service.actions service)
      (str "Actions for " ++ Service.string_prefix service) true raw with
  | .interrupted => .interrupt
  | .cancelled => .cancel
  | .chosen xs => .selected xs

/-- Embedding of write_policy_header (cli.py lines 126-129): the three
header lines printed into the buffer before the loop starts. -/
def write_policy_header : List (List Char) :=
  [str "    PolicyDocument:",
   str "      Version: 2012-10-17",
   str "      Statement:"]

/-- Embedding of policy_writer and its inner write_policy (cli.py lines
132-143): the lines of one statement block.  An absent arn_format yields
the wildcard token, otherwise the embedder resolves the template; the
resource value is single-quoted, and each chosen action is written fully
qualified behind the action-namespace value of the service. -/
def policy_writer (embeder : List Char → List Char) :
    Service → List (List Char) → List (List Char) :=
  fun service actions =>
    let arn : List Char :=
      match Service.arn_format service with
      | some fmt => embeder fmt
      | none => [ '*' ]
    str "        - Effect: Allow" ::
    (str "          Resource: " ++ squote :: (arn ++ [squote])) ::
    str "          Action:" ::
    actions.map (fun a =>
      str "            - " ++ Service.string_prefix service ++ ':' :: a)

/-- Embedding of the interactive loop of main (cli.py lines 169-184) as a
fold over the finite trace of raw picker results observed in one session,
consumed one per picker invocation.  Each of a service-prompt cancellation,
an unresolved selection, an actions-prompt cancellation, a picker interrupt
(caught at line 183) and the end of the trace terminates the loop; a
completed pick appends one statement block and sets insert_end.  The result
is the list of statement blocks written into the buffer. -/
def main_loop (policies : Policies) (embeder : List Char → List Char) :
    List FzfResult → Bool → List (List (List Char))
  | [], _ => []
  | r :: rest, insert_end =>
    match input_service policies insert_end r with
    | .interrupt => []
    | .cancel => []
    | .found service =>
      match rest with
      | [] => []
      | r2 :: rest2 =>
        match input_actions service r2 with
        | .interrupt => []
        | .cancel => []
        | .selected actions =>
          policy_writer embeder service actions ::
            main_loop policies embeder rest2 true

/-- The full buffer printed by main at cli.py line 186: the header written
before the loop followed by the statement blocks the loop appended, with
the embedder wired from the resolved region and account values exactly as
at lines 161-162. -/
def main_output (region account_id : Option (List Char))
    (policies : Policies) (script : List FzfResult) : List (List Char) :=
  write_policy_header ++
    (main_loop policies (variables_embeder region account_id) script false).flatten

/-- One completed pick of the interactive session: the raw picker results
of its two prompts together with the service and actions they resolve to. -/
structure Pick where
  svcResp : FzfResult
  actResp : FzfResult
  service : Service
  actions : List (List Char)
deriving DecidableEq

/-- The picker trace generated by a list of completed picks: the two raw
results of each pick in order. -/
def scriptOf (picks : List Pick) : List FzfResult :=
  picks.flatMap (fun p => [Pick.svcResp p, Pick.actResp p])

/-- The statement blocks a list of completed picks writes. -/
def blocksOf (embeder : List Char → List Char) (picks : List Pick) :
    List (List (List Char)) :=
  picks.map (fun p => policy_writer embeder (Pick.service p) (Pick.actions p))

/-- The states of the selection loop reachable from its start: insert_end
is initially false with an empty buffer, and every completed pick appends
its statement block and sets insert_end. -/
inductive Reachable (policies : Policies) (embeder : List Char → List Char) :
    Bool → List (List (List Char)) → Prop where
  | init : Reachable policies embeder false []
  | step {insert_end : Bool} {acc : List (List (List Char))}
      {r r2 : FzfResult} {service : Service} {actions : List (List Char)} :
      Reachable policies embeder insert_end acc →
      input_service policies insert_end r = SvcRes.found service →
      input_actions service r2 = ActRes.selected actions →
      Reachable policies embeder true
        (acc ++ [policy_writer embeder service actions])

/-- A concrete catalog service used by witnesses: the scenario-A service. -/
def svcS3 : Service :=
  { string_prefix := str "s3",
    actions := [str "GetObject", str "PutObject"],
    arn_format := some (str "arn:aws:s3:::*") }

/-- A concrete service without a resource template, used by witnesses. -/
def svcNoArn : Service :=
  { string_prefix := str "logs", actions := [str "PutLogEvents"] }

/-- A concrete service whose action-namespace value is the single letter c,
used by the label round-trip counterexample. -/
def svcBr : Service := { string_prefix := str "c", actions := [str "A"] }

/-- A concrete one-service catalog used by witnesses. -/
def polW : Policies :=
  { condition_operators := [], condition_keys := [],
    service_map := [(str "Amazon S3", svcS3)] }

/-- A concrete embedder (no region, no account value) used by witnesses. -/
def embW : List Char → List Char := variables_embeder none none

/-- A pattern containing every placeholder spelling the source enumerates,
in the angle syntax, the brace syntax and the dollar-brace syntax,
separated by pipes. -/
def patternAllVariants : List Char :=
  List.intercalate [ '|' ]
    [angled (str "region"), braced (str "region"), '$' :: braced (str "region"),
     angled (str "Account"), angled (str "AccountId"), angled (str "account"),
     angled (str "accountId"), angled (str "account_id"),
     angled (str "account_ID"), angled (str "account_Id"),
     braced (str "account_id")]

/-- Claim C1 counterexample: resolving the ec2 instance pattern with region
us-east-1 and accountId 123 yields a plain literal substitution whose
result contains the literal value us-east-1 (twice, since the account
placeholder is also filled with the region value); no dynamic-substitution
marker or wrapper is produced. -/
theorem claim_C1_cex :
    variables_embeder (some (str "us-east-1")) (some (str "123"))
        (str "arn:aws:ec2:<region>:<account_id>:instance/*") =
      str "arn:aws:ec2:us-east-1:us-east-1:instance/*" ∧
    containsSub (str "us-east-1")
      (variables_embeder (some (str "us-east-1")) (some (str "123"))
        (str "arn:aws:ec2:<region>:<account_id>:instance/*")) = true :=
  ⟨rfl, rfl⟩

/-- Claim C1 amended: when the region value is present the substitution
engine replaces recognized placeholders with the literal region value and
returns the result unwrapped; resolving the ec2 instance pattern with
region us-east-1 yields the literal form regardless of the account
value. -/
theorem claim_C1_amended :
    variables_embeder (some (str "us-east-1")) (some (str "123"))
        (str "arn:aws:ec2:<region>:<account_id>:instance/*") =
      str "arn:aws:ec2:us-east-1:us-east-1:instance/*" ∧
    variables_embeder (some (str "us-east-1")) none
        (str "arn:aws:ec2:<region>:<account_id>:instance/*") =
      str "arn:aws:ec2:us-east-1:us-east-1:instance/*" :=
  ⟨rfl, rfl⟩

/-- Claim C2: the code at the failing input.  A region placeholder is left
verbatim when the region value is absent, but an account placeholder is
not governed by the account value: with the region value present and the
account value absent the account placeholder is replaced by the region
value, and with the account value present and the region value absent it
survives untouched. -/
theorem claim_C2_code_behavior :
    variables_embeder (some (str "us-east-1")) none
        (angled (str "account_id")) = str "us-east-1" ∧
    variables_embeder none none (angled (str "region")) =
      angled (str "region") ∧
    variables_embeder none (some (str "123")) (angled (str "account_id")) =
      angled (str "account_id") :=
  ⟨rfl, rfl, rfl⟩

/-- Claim C7 counterexample: placeholder recognition is not
case-insensitive (an upper-case REGION token survives although the region
value is present), and account placeholders are not replaced when the
account value is present (with the region value absent the account
placeholder survives). -/
theorem claim_C7_cex :
    variables_embeder (some (str "us-east-1")) (some (str "123"))
        (str "<REGION>") = str "<REGION>" ∧
    variables_embeder none (some (str "123")) (angled (str "account_id")) =
      angled (str "account_id") :=
  ⟨rfl, rfl⟩

/-- Claim C7 amended: recognition is by exact, case-sensitive match of the
enumerated spellings (region for the region key; Account, AccountId,
account, accountId, account_id, account_ID, account_Id for the account
key), each in the angle and in the brace syntax; the dollar-brace form is
covered because its brace substring is replaced, which leaves the dollar
sign in place.  Every recognized placeholder is replaced exactly when the
region value is present, always with the region value. -/
theorem claim_C7_amended :
    variables_embeder (some (str "R")) none patternAllVariants =
      str "R|R|$R|R|R|R|R|R|R|R|R" ∧
    variables_embeder none (some (str "123")) patternAllVariants =
      patternAllVariants :=
  ⟨rfl, rfl⟩

/-- Claim C10: the substitution engine is independent of the account value;
two runtime contexts agreeing on the region produce identical output on
every pattern, because the embedded function never consults its account
argument. -/
theorem claim_C10_account_independent (region a1 a2 : Option (List Char))
    (fmt : List Char) :
    variables_embeder region a1 fmt = variables_embeder region a2 fmt := rfl

/-- Claim C5 counterexample: for the catalog key that is the string a
followed by a bracketed b, labelled with the action-namespace value c, the
stripping regex removes everything from the first bracketed group, not the
last, so the recovered key is the single letter a and the round trip
fails. -/
theorem claim_C5_cex :
    strip_label (label (str "a [b]") svcBr) = str "a" ∧
    (str "a" : List Char) ≠ str "a [b]" :=
  ⟨rfl, by decide⟩

/-- Claim C6: a service with no resource template always renders the
wildcard resource line, single-quoted, regardless of the embedder and the
chosen actions. -/
theorem claim_C6_wildcard (embeder : List Char → List Char)
    (service : Service) (actions : List (List Char))
    (h : Service.arn_format service = none) :
    policy_writer embeder service actions =
      str "        - Effect: Allow" ::
      (str "          Resource: " ++ squote :: ('*' :: [squote])) ::
      str "          Action:" ::
      actions.map (fun a =>
        str "            - " ++ Service.string_prefix service ++ ':' :: a) := by
  simp [policy_writer, h]

/-- Witness for claim C6 at a concrete service without a resource
template. -/
theorem claim_C6_witness :
    Service.arn_format svcNoArn = none ∧
    policy_writer embW svcNoArn [str "PutLogEvents"] =
      str "        - Effect: Allow" ::
      (str "          Resource: " ++ squote :: ('*' :: [squote])) ::
      str "          Action:" ::
      [str "PutLogEvents"].map (fun a =>
        str "            - " ++ Service.string_prefix svcNoArn ++ ':' :: a) :=
  ⟨rfl, claim_C6_wildcard embW svcNoArn [str "PutLogEvents"] rfl⟩

/-- The suffix check accepts a non-empty newline-free core followed by the
closing bracket. -/
lemma checkA_concat (p : List Char) (hp : p ≠ []) (hpn : ('\n' : Char) ∉ p) :
    checkA (p ++ [']']) = true := by
  unfold checkA
  rw [List.getLast?_concat, List.dropLast_concat]
  simp [List.all_eq_true, List.isEmpty_iff, hp]
  intro x hx hcontra
  exact hpn (hcontra ▸ hx)

/-- The regex matches at the separator of a label: a space, the opening
bracket, a non-empty newline-free core and the closing bracket at the end
of the string. -/
lemma matchHere_sep (p : List Char) (hp : p ≠ []) (hpn : ('\n' : Char) ∉ p) :
    matchHere (' ' :: '[' :: (p ++ [']'])) = some [] := by
  have h1 : List.dropWhile isSpacePy (' ' :: '[' :: (p ++ [']'])) =
      '[' :: (p ++ [']']) := by
    rw [List.dropWhile_cons, if_pos (by decide), List.dropWhile_cons,
      if_neg (by decide)]
  unfold matchHere
  rw [h1]
  simp [checkA_concat p hp hpn]

/-- No match of the regex can start inside a chunk that contains no opening
bracket and does not end in whitespace: the leftmost non-whitespace
character the scan stops at lies inside the chunk and is not an opening
bracket. -/
lemma matchHere_skip (k tail : List Char) (hk : ('[' : Char) ∉ k)
    (hne : k ≠ [])
    (hlast : (Option.all (fun c => ! isSpacePy c) k.getLast?) = true) :
    matchHere (k ++ tail) = none := by
  induction k with
  | nil => exact absurd rfl hne
  | cons c k ih =>
    by_cases hc : isSpacePy c = true
    · cases k with
      | nil =>
        exfalso
        rw [List.getLast?_singleton] at hlast
        simp [Option.all, hc] at hlast
      | cons d k2 =>
        have heq : matchHere ((c :: d :: k2) ++ tail) =
            matchHere ((d :: k2) ++ tail) := by
          unfold matchHere
          rw [List.cons_append, List.dropWhile_cons, if_pos hc]
        rw [heq]
        refine ih (fun h => hk (List.mem_cons_of_mem c h)) (by simp) ?hl
        rw [List.getLast?_cons_cons] at hlast
        exact hlast
    · unfold matchHere
      rw [List.cons_append, List.dropWhile_cons, if_neg hc]
      have hcb : ¬ (c = '[') := fun h => hk (h ▸ List.mem_cons_self c k)
      simp [hcb]

/-- Definitional unfolding of the scan on a non-empty list. -/
lemma reSubGo_cons (c : Char) (t : List Char) : reSubGo (c :: t) =
    (match matchHere (c :: t) with
     | some leftover => leftover
     | none => c :: reSubGo t) := rfl

/-- Stripping the label suffix recovers the key when the key contains no
opening bracket and does not end in a whitespace character, given a
non-empty newline-free bracketed value. -/
lemma reSubGo_label (p : List Char) (hp : p ≠ []) (hpn : ('\n' : Char) ∉ p) :
    ∀ k : List Char, ('[' : Char) ∉ k →
      (Option.all (fun c => ! isSpacePy c) k.getLast?) = true →
      reSubGo (k ++ ' ' :: '[' :: (p ++ [']'])) = k := by
  intro k
  induction k with
  | nil =>
    intro _ _
    rw [List.nil_append, reSubGo_cons, matchHere_sep p hp hpn]
  | cons c k ih =>
    intro hk hlast
    rw [List.cons_append, reSubGo_cons]
    have hnone : matchHere ((c :: k) ++ (' ' :: '[' :: (p ++ [']']))) = none :=
      matchHere_skip (c :: k) _ hk (by simp) hlast
    rw [List.cons_append] at hnone
    rw [hnone]
    show c :: reSubGo (k ++ (' ' :: '[' :: (p ++ [']']))) = c :: k
    congr 1
    refine ih (fun h => hk (List.mem_cons_of_mem c h)) ?hl
    cases k with
    | nil => simp [Option.all]
    | cons d k2 =>
      rw [List.getLast?_cons_cons] at hlast
      exact hlast

/-- Claim C5 amended: the label round trip recovers exactly the catalog key
for every key that contains no opening bracket and does not end in a
whitespace character, provided the action-namespace value of the service is
non-empty and newline-free; the code strips from the leftmost point at
which optional whitespace is followed by an opening bracket with the rest
of the string closing at the end, so keys violating these conditions are
over-stripped. -/
theorem claim_C5_amended (k : List Char) (s : Service)
    (hk : ('[' : Char) ∉ k)
    (hlast : (Option.all (fun c => ! isSpacePy c) k.getLast?) = true)
    (hp : Service.string_prefix s ≠ [])
    (hpn : ('\n' : Char) ∉ Service.string_prefix s) :
    strip_label (label k s) = k := by
  unfold strip_label label
  exact reSubGo_label ( Service.string_prefix s) hp hpn k hk hlast

/-- Witness for the amended claim C5 at a concrete catalog key and
service. -/
theorem claim_C5_amended_witness :
    (('[' : Char) ∉ str "Amazon S3") ∧
    Service.string_prefix svcS3 ≠ [] ∧
    strip_label (label (str "Amazon S3") svcS3) = str "Amazon S3" :=
  ⟨by decide, by decide,
    claim_C5_amended (str "Amazon S3") svcS3 (by decide) (by decide)
      (by decide) (by decide)⟩

/-- The loop terminates with no further blocks when the service prompt does
not resolve to a service (cancellation, interrupt or unresolved label). -/
lemma main_loop_not_found {policies : Policies}
    {embeder : List Char → List Char} {r : FzfResult} {rest : List FzfResult}
    {insert_end : Bool}
    (hterm : ∀ s, input_service policies insert_end r ≠ SvcRes.found s) :
    main_loop policies embeder (r :: rest) insert_end = [] := by
  cases hsv : input_service policies insert_end r with
  | interrupt => simp only [main_loop, hsv]
  | cancel => simp only [main_loop, hsv]
  | found s => exact absurd hsv (hterm s)

/-- The loop terminates with no further blocks when the actions prompt is
cancelled or interrupted after a resolved service pick. -/
lemma main_loop_act_abort {policies : Policies}
    {embeder : List Char → List Char} {r r2 : FzfResult}
    {rest : List FzfResult} {insert_end : Bool} {service : Service}
    (hsvc : input_service policies insert_end r = SvcRes.found service)
    (hact : input_actions service r2 = ActRes.interrupt ∨
      input_actions service r2 = ActRes.cancel) :
    main_loop policies embeder (r :: r2 :: rest) insert_end = [] := by
  rcases hact with h | h <;> simp only [main_loop, hsvc, h]

/-- One completed pick appends exactly its statement block and continues
with insert_end set. -/
lemma main_loop_pick {policies : Policies} {embeder : List Char → List Char}
    {r r2 : FzfResult} {rest : List FzfResult} {insert_end : Bool}
    {service : Service} {actions : List (List Char)}
    (hsvc : input_service policies insert_end r = SvcRes.found service)
    (hact : input_actions service r2 = ActRes.selected actions) :
    main_loop policies embeder (r :: r2 :: rest) insert_end =
      policy_writer embeder service actions ::
        main_loop policies embeder rest true := by
  simp only [main_loop, hsvc, hact]

/-- Running the loop on the trace of a list of completed picks followed by
any terminating tail yields exactly the blocks of those picks, in order. -/
lemma main_loop_scriptOf (policies : Policies)
    (embeder : List Char → List Char) :
    ∀ picks : List Pick,
      (∀ p ∈ picks,
        input_service policies false (Pick.svcResp p) =
          SvcRes.found (Pick.service p) ∧
        input_service policies true (Pick.svcResp p) =
          SvcRes.found (Pick.service p) ∧
        input_actions (Pick.service p) (Pick.actResp p) =
          ActRes.selected (Pick.actions p)) →
      ∀ rest : List FzfResult,
        (∀ ie, main_loop policies embeder rest ie = []) →
        ∀ ie, main_loop policies embeder (scriptOf picks ++ rest) ie =
          blocksOf embeder picks := by
  intro picks
  induction picks with
  | nil =>
    intro _ rest hrest ie
    simpa [scriptOf, blocksOf] using hrest ie
  | cons p ps ih =>
    intro hp rest hrest ie
    obtain ⟨hf, ht, ha⟩ := hp p (List.mem_cons_self p ps)
    have hie : input_service policies ie (Pick.svcResp p) =
        SvcRes.found (Pick.service p) := by
      cases ie with
      | false => exact hf
      | true => exact ht
    have hscript : scriptOf (p :: ps) =
        Pick.svcResp p :: Pick.actResp p :: scriptOf ps := by
      simp [scriptOf]
    rw [hscript, List.cons_append, List.cons_append, main_loop_pick hie ha,
      ih (fun q hq => hp q (List.mem_cons_of_mem p hq)) rest hrest true]
    simp [blocksOf]

/-- Claim C3: for any sequence of completed picks followed by a service
prompt that does not resolve (cancellation, interrupt or unresolved
label), the loop produces exactly one statement block per pick, in pick
order, with the block of the i-th pick built from that pick by the writer;
picks are never merged or deduplicated, and the terminating prompt appends
nothing. -/
theorem claim_C3_statement_ordering (policies : Policies)
    (embeder : List Char → List Char) (picks : List Pick)
    (hp : ∀ p ∈ picks,
      input_service policies false (Pick.svcResp p) =
        SvcRes.found (Pick.service p) ∧
      input_service policies true (Pick.svcResp p) =
        SvcRes.found (Pick.service p) ∧
      input_actions (Pick.service p) (Pick.actResp p) =
        ActRes.selected (Pick.actions p))
    (r : FzfResult)
    (hterm : ∀ ie s, input_service policies ie r ≠ SvcRes.found s)
    (rest : List FzfResult) :
    main_loop policies embeder (scriptOf picks ++ r :: rest) false =
      blocksOf embeder picks ∧
    (main_loop policies embeder (scriptOf picks ++ r :: rest) false).length =
      picks.length := by
  have hmain := main_loop_scriptOf policies embeder picks hp (r :: rest)
    (fun ie => main_loop_not_found (hterm ie)) false
  refine ⟨hmain, ?len⟩
  rw [hmain]
  simp [blocksOf]

/-- A concrete completed pick used by witnesses. -/
def pickW : Pick :=
  { svcResp := FzfResult.out [str "Amazon S3 [s3]"],
    actResp := FzfResult.out [str "GetObject"],
    service := svcS3,
    actions := [str "GetObject"] }

/-- Witness for claim C3: two picks of the same service followed by a
cancelled service prompt yield two separate blocks. -/
theorem claim_C3_witness :
    main_loop polW embW (scriptOf [pickW, pickW] ++ FzfResult.out [] :: [])
        false = blocksOf embW [pickW, pickW] ∧
    (main_loop polW embW (scriptOf [pickW, pickW] ++ FzfResult.out [] :: [])
        false).length = ([pickW, pickW] : List Pick).length :=
  claim_C3_statement_ordering polW embW [pickW, pickW] (by decide)
    (FzfResult.out [])
    (by intro ie s h; simp [input_service, select_menu] at h) []

/-- The flag driving the sentinel equals non-emptiness of the buffer in
every reachable loop state. -/
lemma reachable_flag {policies : Policies} {embeder : List Char → List Char}
    {insert_end : Bool} {acc : List (List (List Char))}
    (h : Reachable policies embeder insert_end acc) :
    insert_end = true ↔ acc ≠ [] := by
  induction h with
  | init => simp
  | step h1 h2 h3 ih => simp

/-- A displayed catalog label always contains an opening bracket, so it is
never the sentinel. -/
lemma label_ne_end (k : List Char) (s : Service) : label k s ≠ str "end" := by
  intro h
  have h1 : ('[' : Char) ∈ label k s := by simp [label]
  rw [h] at h1
  exact absurd h1 (by decide)

/-- The sentinel occurs among the candidates exactly when insert_end is
set. -/
lemma end_mem_candidates (policies : Policies) (ie : Bool) :
    str "end" ∈ service_candidates policies ie ↔ ie = true := by
  cases ie with
  | true =>
    rw [show service_candidates policies true =
      str "end" :: policies.service_map.map (fun kv => label kv.1 kv.2)
      from rfl]
    exact ⟨fun _ => rfl, fun _ => List.mem_cons_self _ _⟩
  | false =>
    simp only [service_candidates, Bool.false_eq_true, if_false,
      List.mem_map, iff_false]
    rintro ⟨kv, _, hkv⟩
    exact label_ne_end kv.1 kv.2 hkv

/-- The sentinel is the head of the candidate list exactly when insert_end
is set. -/
lemma end_head_candidates (policies : Policies) (ie : Bool) :
    (service_candidates policies ie).head? = some (str "end") ↔ ie = true := by
  cases ie with
  | true =>
    rw [show service_candidates policies true =
      str "end" :: policies.service_map.map (fun kv => label kv.1 kv.2)
      from rfl]
    exact ⟨fun _ => rfl, fun _ => rfl⟩
  | false =>
    cases hm : policies.service_map with
    | nil => simp [service_candidates, hm]
    | cons kv t =>
      rw [show service_candidates policies false =
        (kv :: t).map (fun kv => label kv.1 kv.2) from by
          simp [service_candidates, hm]]
      simp only [List.map_cons, List.head?_cons, Option.some.injEq]
      simp [label_ne_end kv.1 kv.2]

/-- Claim C4: in every reachable state of the loop the sentinel label end
is offered, and offered first, exactly when at least one statement block
has been appended; and choosing the offered sentinel terminates the loop
without appending anything. -/
theorem claim_C4_sentinel (policies : Policies)
    (embeder : List Char → List Char) (insert_end : Bool)
    (acc : List (List (List Char)))
    (h : Reachable policies embeder insert_end acc) :
    ((service_candidates policies insert_end).head? = some (str "end") ↔
      acc ≠ []) ∧
    (str "end" ∈ service_candidates policies insert_end ↔ acc ≠ []) ∧
    (∀ rest, main_loop policies embeder
      (FzfResult.out [str "end"] :: rest) true = []) := by
  have hflag := reachable_flag h
  refine ⟨?h1, ?h2, ?h3⟩
  · rw [end_head_candidates]
    exact hflag
  · rw [end_mem_candidates]
    exact hflag
  · intro rest
    have hend : input_service policies true (FzfResult.out [str "end"]) =
        SvcRes.cancel := rfl
    exact main_loop_not_found (fun s h => by rw [hend] at h; cases h)

/-- Witness for claim C4 at the initial loop state over a concrete
catalog. -/
theorem claim_C4_witness :
    ((service_candidates polW false).head? = some (str "end") ↔
      ([] : List (List (List Char))) ≠ []) ∧
    (str "end" ∈ service_candidates polW false ↔
      ([] : List (List (List Char))) ≠ []) ∧
    main_loop polW embW (FzfResult.out [str "end"] :: []) true = [] :=
  ⟨(claim_C4_sentinel polW embW false [] Reachable.init).1,
   (claim_C4_sentinel polW embW false [] Reachable.init).2.1,
   (claim_C4_sentinel polW embW false [] Reachable.init).2.2 []⟩

/-- Claim C8: a cancellation at any point is a normal exit that keeps every
block accumulated before it.  Completed picks followed by a non-resolving
service prompt (cancellation, interrupt or unresolved label) print the
header and exactly their blocks; completed picks followed by a resolved
service pick whose actions prompt is cancelled or interrupted print the
same, discarding only the in-flight pick; and cancelling the very first
service prompt prints the header alone. -/
theorem claim_C8_cancellation (region account_id : Option (List Char))
    (policies : Policies) (picks : List Pick)
    (hp : ∀ p ∈ picks,
      input_service policies false (Pick.svcResp p) =
        SvcRes.found (Pick.service p) ∧
      input_service policies true (Pick.svcResp p) =
        SvcRes.found (Pick.service p) ∧
      input_actions (Pick.service p) (Pick.actResp p) =
        ActRes.selected (Pick.actions p))
    (r : FzfResult)
    (hterm : ∀ ie s, input_service policies ie r ≠ SvcRes.found s)
    (rsvc ract : FzfResult) (sX : Service)
    (hsvc : ∀ ie, input_service policies ie rsvc = SvcRes.found sX)
    (hact : input_actions sX ract = ActRes.interrupt ∨
      input_actions sX ract = ActRes.cancel) :
    main_output region account_id policies (scriptOf picks ++ [r]) =
      write_policy_header ++
        (blocksOf (variables_embeder region account_id) picks).flatten ∧
    main_output region account_id policies (scriptOf picks ++ [rsvc, ract]) =
      write_policy_header ++
        (blocksOf (variables_embeder region account_id) picks).flatten ∧
    main_output region account_id policies [FzfResult.out []] =
      write_policy_header := by
  refine ⟨?a, ?b, ?c⟩
  · unfold main_output
    rw [main_loop_scriptOf policies _ picks hp [r]
      (fun ie => main_loop_not_found (hterm ie)) false]
  · unfold main_output
    rw [main_loop_scriptOf policies _ picks hp [rsvc, ract]
      (fun ie => main_loop_act_abort (hsvc ie) hact) false]
  · unfold main_output
    have hz : main_loop policies (variables_embeder region account_id)
        [FzfResult.out []] false = [] :=
      main_loop_not_found (fun s h => by
        rw [show input_service policies false (FzfResult.out []) =
          SvcRes.cancel from rfl] at h
        cases h)
    rw [hz]
    simp

/-- Witness for claim C8: one completed pick, then the three cancellation
shapes, over a concrete catalog. -/
theorem claim_C8_witness :
    main_output none none polW (scriptOf [pickW] ++ [FzfResult.interrupt]) =
      write_policy_header ++
        (blocksOf (variables_embeder none none) [pickW]).flatten ∧
    main_output none none polW (scriptOf [pickW] ++
        [FzfResult.out [str "Amazon S3 [s3]"], FzfResult.out []]) =
      write_policy_header ++
        (blocksOf (variables_embeder none none) [pickW]).flatten ∧
    main_output none none polW [FzfResult.out []] = write_policy_header :=
  claim_C8_cancellation none none polW [pickW] (by decide)
    FzfResult.interrupt
    (by intro ie s h; simp [input_service, select_menu] at h)
    (FzfResult.out [str "Amazon S3 [s3]"]) (FzfResult.out []) svcS3
    (by intro ie; cases ie <;> decide) (by decide)

/-- A non-empty actions prompt result is exactly what gets selected. -/
lemma input_actions_selected_ne_nil {service : Service} {r : FzfResult}
    {acts : List (List Char)}
    (h : input_actions service r = ActRes.selected acts) : acts ≠ [] := by
  cases r with
  | interrupt => simp [input_actions, select_menu] at h
  | out xs =>
    by_cases hxs : xs = []
    · simp [input_actions, select_menu, hxs] at h
    · simp [input_actions, select_menu, hxs] at h
      rw [← h]
      exact hxs

/-- Claim C9: an empty actions selection is surfaced as cancellation, and
every statement block in every reachable buffer comes from a non-empty
action selection, its action lines being exactly the chosen actions in
order, each qualified with the action-namespace value of the service. -/
theorem claim_C9_actions (policies : Policies)
    (embeder : List Char → List Char) (insert_end : Bool)
    (acc : List (List (List Char)))
    (h : Reachable policies embeder insert_end acc) :
    (∀ service, input_actions service (FzfResult.out []) = ActRes.cancel) ∧
    (∀ block ∈ acc, ∃ (service : Service) (actions : List (List Char)),
      actions ≠ [] ∧ block = policy_writer embeder service actions ∧
      List.drop 3 block = actions.map (fun a =>
        str "            - " ++ Service.string_prefix service ++ ':' :: a)) := by
  refine ⟨fun service => rfl, ?blocks⟩
  induction h with
  | init => intro block hb; exact absurd hb (List.not_mem_nil block)
  | step h1 h2 h3 ih =>
    intro block hb
    rcases List.mem_append.mp hb with hb | hb
    · exact ih block hb
    · rw [List.mem_singleton] at hb
      subst hb
      exact ⟨_, _, input_actions_selected_ne_nil h3, rfl, rfl⟩

/-- Witness for claim C9 at a concrete reachable state holding one
block. -/
theorem claim_C9_witness :
    input_actions svcS3 (FzfResult.out []) = ActRes.cancel ∧
    (∃ (service : Service) (actions : List (List Char)),
      actions ≠ [] ∧
      policy_writer embW svcS3 [str "PutObject", str "GetObject"] =
        policy_writer embW service actions ∧
      List.drop 3 (policy_writer embW svcS3
          [str "PutObject", str "GetObject"]) =
        actions.map (fun a =>
          str "            - " ++ Service.string_prefix service ++
            ':' :: a)) :=
  have h := claim_C9_actions polW embW true
    [policy_writer embW svcS3 [str "PutObject", str "GetObject"]]
    (@Reachable.step polW embW false []
      (FzfResult.out [str "Amazon S3 [s3]"])
      (FzfResult.out [str "PutObject", str "GetObject"])
      svcS3 [str "PutObject", str "GetObject"]
      Reachable.init (by decide) (by decide))
  ⟨h.1 svcS3,
   h.2 (policy_writer embW svcS3 [str "PutObject", str "GetObject"])
     (List.mem_singleton.mpr rfl)⟩

end AwsPolicyGenerator
